import Mathlib

/-!
Verification development for the `wasmserve` development HTTP server
(`src/main.go`).  The Go program is shallowly embedded: every pure
computation of the source is translated to an executable Lean function,
stateful pieces (the global `tmpOutputDir`, the unbuffered `waitChannel`,
the filesystem and subprocess collaborators) become explicit state or
oracle fields of a `World` structure, and each claimed property of the
specification is settled as a theorem about these definitions.
-/

set_option maxRecDepth 10000

/-- Convert a string literal to the `List Char` representation used
throughout this development (Go strings are modelled as `List Char`). -/
def str (s : String) : List Char := s.toList

/-- `occursIn pat l` holds when `pat` appears as a contiguous segment of
`l`. -/
def occursIn (pat l : List Char) : Prop := ∃ a b, l = a ++ pat ++ b

/- ----------------------------------------------------------------------
Rendezvous channel (src/main.go lines 68-71, 221-235).

`waitChannel` is an unbuffered (capacity-zero) Go channel.  `waitForUpdate`
performs `waitChannel <- struct{}{}`: the request goroutine blocks as a
*sender* until some receiver takes the value, then responds 200 with an
empty body.  The channel state is therefore exactly the queue of blocked
senders (pending waiters); an unbuffered channel stores nothing else, so
the state is modelled as the list of pending waiter identifiers.
---------------------------------------------------------------------- -/

/-- The `for { select { case <-waitChannel: | default: ... } }` loop of
`notifyWaiters` (src/main.go lines 227-234): while some sender is blocked
on the channel, receive from it (releasing that waiter); when no sender is
ready the `default` branch runs, the handler responds and returns.
Returns `(released waiters, waiters still pending afterwards)`. -/
def notifyLoop : List Nat → List Nat × List Nat
  | [] => ([], [])
  | x :: rest => ((notifyLoop rest).1.cons x, (notifyLoop rest).2)

/-- Result of one `notifyWaiters` call: the waiters it released, the
pending waiters left behind, and the HTTP response it wrote (status,
body).  The only exit of the loop is the `default` branch, which serves
empty content with status 200. -/
structure NotifyOut where
  released : List Nat
  remaining : List Nat
  resp : Nat × List Char
deriving DecidableEq

/-- One GET to `/_notify` (src/main.go lines 226-235), acting on the
current channel state (list of pending waiters). -/
def notifyWaitersModel (pending : List Nat) : NotifyOut :=
  ⟨(notifyLoop pending).1, (notifyLoop pending).2, (200, [])⟩

/-- One GET to `/_wait` (src/main.go lines 221-224) that finds channel
state `pending`: the request goroutine blocks as one more sender. -/
def waitEnqueue (pending : List Nat) (wid : Nat) : List Nat :=
  pending ++ [wid]

/-- Iterate `notifyWaiters` calls from a given channel state, collecting
the responses and the final state. -/
def iterNotify : Nat → List Nat → List (Nat × List Char) × List Nat
  | 0, pending => ([], pending)
  | n + 1, pending =>
      ((notifyWaitersModel pending).resp ::
        (iterNotify n (notifyWaitersModel pending).remaining).1,
       (iterNotify n (notifyWaitersModel pending).remaining).2)

theorem notifyLoop_eq (l : List Nat) : notifyLoop l = (l, []) := by
  induction l with
  | nil => rfl
  | cons x rest ih => simp [notifyLoop, ih]

theorem notifyWaitersModel_eq (pending : List Nat) :
    notifyWaitersModel pending = ⟨pending, [], (200, [])⟩ := by
  simp [notifyWaitersModel, notifyLoop_eq]

/-- Claim C1 (counterexample): with two waiters pending, a single
`notify()` releases both of them, so a single `notify()` can release more
than one pending waiter. -/
theorem single_notify_releases_two_pending_waiters :
    (notifyWaitersModel [0, 1]).released = [0, 1] ∧
    ¬ (notifyWaitersModel [0, 1]).released.length ≤ 1 := by
  constructor
  · rfl
  · decide

/-- Claim C1 (amended): every `wait()` pending when a `notify()` arrives
completes exactly once for that notify — never twice, and never zero times
while it is pending — but a single `notify()` releases *all* pending
waiters (possibly more than one): the released list is exactly the pending
list and nothing stays pending. -/
theorem pending_wait_completes_exactly_once_per_notify
    (pending : List Nat) (wid : Nat) :
    (notifyWaitersModel pending).released = pending ∧
    (notifyWaitersModel pending).remaining = [] ∧
    (List.count wid pending = 1 →
      List.count wid (notifyWaitersModel pending).released = 1) ∧
    (wid ∈ pending → wid ∈ (notifyWaitersModel pending).released) := by
  refine ⟨?_, ?_, ?_, ?_⟩ <;> simp [notifyWaitersModel_eq]

theorem pending_wait_completes_exactly_once_per_notify_inst :
    List.count 5 (notifyWaitersModel [5]).released = 1 :=
  (pending_wait_completes_exactly_once_per_notify [5] 5).2.2.1 (by decide)

/-- Claim C2: a `notify()` arriving with zero pending waiters responds 200
with an empty body at once and leaves the channel state unchanged (no
queued signal); any number of racing notifies with zero waiters all do the
same, and a later `wait()` behaves exactly as if they never happened. -/
theorem iterNotify_nil (n : Nat) :
    iterNotify n [] = (List.replicate n (200, []), []) := by
  induction n with
  | zero => rfl
  | succ k ih => simp [iterNotify, notifyWaitersModel_eq, ih, List.replicate_succ]

theorem notify_with_no_waiters_is_noop (n : Nat) (wid : Nat) :
    (iterNotify n []).2 = [] ∧
    (∀ r ∈ (iterNotify n []).1, r = (200, [])) ∧
    (notifyWaitersModel []).released = [] ∧
    waitEnqueue (iterNotify n []).2 wid = waitEnqueue [] wid := by
  refine ⟨?_, ?_, ?_, ?_⟩
  · simp [iterNotify_nil]
  · intro r hr
    rw [iterNotify_nil] at hr
    exact List.eq_of_mem_replicate hr
  · simp [notifyWaitersModel_eq]
  · simp [iterNotify_nil]

theorem notify_with_no_waiters_is_noop_inst :
    (iterNotify 3 []).2 = [] ∧ waitEnqueue (iterNotify 3 []).2 7 = [7] :=
  ⟨(notify_with_no_waiters_is_noop 3 7).1,
   by simpa [waitEnqueue] using (notify_with_no_waiters_is_noop 3 7).2.2.2⟩

/- ----------------------------------------------------------------------
Lazily created temporary output directory (src/main.go lines 68-84).

`ensureTmpOutputDir` reads the module-level variable `tmpOutputDir`; if it
is non-empty it returns it, otherwise it asks `ioutil.TempDir` for a fresh
directory, stores the result and returns it.  The call is modelled as a
function of the current variable value and the oracle result of
`ioutil.TempDir`; it returns the path handed to the caller, the new value
of the variable, and whether a new temporary directory was created.
---------------------------------------------------------------------- -/

def ensureTmpOutputDir (cur : List Char)
    (tempDir : Except (List Char) (List Char)) :
    Except (List Char) (List Char × List Char × Bool) :=
  if cur ≠ [] then .ok (cur, cur, false)
  else
    match tempDir with
    | .error e => .error e
    | .ok tmp => .ok (tmp, tmp, true)

/-- Claim C8: once a call to `ensureTmpOutputDir` has succeeded and
returned a (non-empty) path, every subsequent call returns that same path,
leaves the stored path unchanged and creates no new temporary directory,
whatever `ioutil.TempDir` would have answered. -/
theorem output_dir_stable_after_first_success
    (cur p s₁ : List Char) (b : Bool)
    (t₁ t₂ : Except (List Char) (List Char))
    (h : ensureTmpOutputDir cur t₁ = .ok (p, s₁, b))
    (hp : p ≠ []) :
    ensureTmpOutputDir s₁ t₂ = .ok (p, s₁, false) := by
  unfold ensureTmpOutputDir at h ⊢
  by_cases hc : cur ≠ []
  · simp only [if_pos hc] at h
    obtain ⟨h1, h2, _⟩ := by simpa using h
    subst h1; subst h2
    simp [hc]
  · simp only [if_neg hc] at h
    match t₁ with
    | .error e => simp at h
    | .ok tmp =>
        obtain ⟨h1, h2, _⟩ := by simpa using h
        subst h1; subst h2
        simp [hp]

theorem output_dir_stable_after_first_success_inst :
    ensureTmpOutputDir (str "/tmp/x") (.ok (str "/tmp/y")) =
      .ok (str "/tmp/x", str "/tmp/x", false) :=
  output_dir_stable_after_first_success [] (str "/tmp/x") (str "/tmp/x") true
    (.ok (str "/tmp/x")) (.ok (str "/tmp/y")) rfl (by decide)

/- ----------------------------------------------------------------------
Process entry point (src/main.go lines 237-264).

When the environment variable WASMSERVE equals "cp" the process is a
short-lived copy helper: it reads the source and destination paths from
the first two positional arguments (`flag.Args()[0]` / `flag.Args()[1]` —
a Go slice index that panics with "index out of range" when the slice is
too short), copies the source file's bytes to the destination and returns
before the HTTP listener is installed.  Otherwise it registers the handler
and starts the listener.
---------------------------------------------------------------------- -/

/-- Oracle state for a process invocation: environment lookup, positional
arguments after flag parsing, readable file contents, and whether
`os.Create` succeeds for a path. -/
structure ProcWorld where
  getenv : List Char → Option (List Char)
  args : List (List Char)
  fs : List Char → Option (List Char)
  createOk : List Char → Bool

inductive MainOutcome
  /-- Go runtime panic (index out of range on `flag.Args()`). -/
  | panicked
  /-- `log.Fatalln` with the given prefix text. -/
  | fatalExit (msg : List Char)
  /-- copy branch ran to completion and returned before the server setup. -/
  | copied (src dst : List Char)
  /-- fell through to `http.HandleFunc` + `http.ListenAndServe`. -/
  | serverStarted
deriving DecidableEq

/-- Result of `main`: its outcome, the filesystem afterwards, and the list
of files it opened for reading (`os.Open`), in order. -/
structure MainOut where
  outcome : MainOutcome
  fs : List Char → Option (List Char)
  opened : List (List Char)

def fsUpdate (fs : List Char → Option (List Char)) (p v : List Char) :
    List Char → Option (List Char) :=
  fun q => if q = p then some v else fs q

/-- `main` (src/main.go lines 237-264).  `io.Copy` between an opened
in-memory source and a successfully created destination is modelled as
always transferring the full contents (its error branch is a transport
failure of the collaborator, unreachable in this model). -/
def runMain (w : ProcWorld) : MainOut :=
  if w.getenv (str "WASMSERVE") = some (str "cp") then
    match w.args with
    | [] => ⟨.panicked, w.fs, []⟩
    | [_] => ⟨.panicked, w.fs, []⟩
    | src :: dst :: _ =>
        match w.fs src with
        | none => ⟨.fatalExit (str "open input"), w.fs, []⟩
        | some contents =>
            if w.createOk dst then
              ⟨.copied src dst, fsUpdate w.fs dst contents, [src]⟩
            else ⟨.fatalExit (str "create output"), w.fs, [src]⟩
  else ⟨.serverStarted, w.fs, []⟩

/-- Claim C7: invoked with WASMSERVE=cp, an openable source and a
creatable destination, the process copies the source bytes verbatim to the
destination, leaves every other file untouched, and finishes in copy mode
without starting the HTTP listener. -/
theorem copy_mode_copies_bytes_exactly
    (w : ProcWorld) (src dst : List Char) (rest : List (List Char))
    (contents : List Char)
    (henv : w.getenv (str "WASMSERVE") = some (str "cp"))
    (hargs : w.args = src :: dst :: rest)
    (hsrc : w.fs src = some contents)
    (hdst : w.createOk dst = true) :
    (runMain w).outcome = .copied src dst ∧
    (runMain w).fs dst = some contents ∧
    (runMain w).fs dst = w.fs src ∧
    (∀ q, q ≠ dst → (runMain w).fs q = w.fs q) ∧
    (runMain w).outcome ≠ .serverStarted := by
  have hrun : runMain w = ⟨.copied src dst, fsUpdate w.fs dst contents, [src]⟩ := by
    unfold runMain
    rw [henv, hargs]
    simp [hsrc, hdst]
  rw [hrun]
  refine ⟨rfl, ?_, ?_, ?_, by simp⟩
  · simp [fsUpdate]
  · simp [fsUpdate, hsrc]
  · intro q hq
    simp [fsUpdate, hq]

def procWorldA : ProcWorld where
  getenv := fun k => if k = str "WASMSERVE" then some (str "cp") else none
  args := [str "a.wasm", str "b.wasm"]
  fs := fun p => if p = str "a.wasm" then some (str "\x00asm") else none
  createOk := fun _ => true

theorem copy_mode_copies_bytes_exactly_inst :
    (runMain procWorldA).outcome = .copied (str "a.wasm") (str "b.wasm") ∧
    (runMain procWorldA).fs (str "b.wasm") = some (str "\x00asm") :=
  ⟨(copy_mode_copies_bytes_exactly procWorldA (str "a.wasm") (str "b.wasm") []
      (str "\x00asm") (by decide) (by decide) (by decide) (by decide)).1,
   (copy_mode_copies_bytes_exactly procWorldA (str "a.wasm") (str "b.wasm") []
      (str "\x00asm") (by decide) (by decide) (by decide) (by decide)).2.1⟩

/-- Claim C10: in copy mode with fewer than two positional arguments the
process panics (index out of range on `flag.Args()`) before opening any
file; it does not exit through `log.Fatalln` with a diagnostic. -/
theorem copy_mode_missing_args_panics_before_open
    (w : ProcWorld)
    (henv : w.getenv (str "WASMSERVE") = some (str "cp"))
    (hlen : w.args.length < 2) :
    (runMain w).outcome = .panicked ∧
    (runMain w).opened = [] ∧
    (runMain w).fs = w.fs ∧
    (∀ m, (runMain w).outcome ≠ .fatalExit m) := by
  have hrun : runMain w = ⟨.panicked, w.fs, []⟩ := by
    unfold runMain
    rw [henv]
    rcases hargs : w.args with _ | ⟨a, _ | ⟨b, t⟩⟩
    · simp
    · simp
    · rw [hargs] at hlen
      simp only [List.length_cons] at hlen
      exact absurd hlen (by omega)
  rw [hrun]
  exact ⟨rfl, rfl, rfl, fun m => by simp⟩

def procWorldB : ProcWorld where
  getenv := fun k => if k = str "WASMSERVE" then some (str "cp") else none
  args := [str "only-one"]
  fs := fun _ => none
  createOk := fun _ => true

theorem copy_mode_missing_args_panics_before_open_inst :
    (runMain procWorldB).outcome = .panicked ∧ (runMain procWorldB).opened = [] :=
  ⟨(copy_mode_missing_args_panics_before_open procWorldB (by decide) (by decide)).1,
   (copy_mode_missing_args_panics_before_open procWorldB (by decide) (by decide)).2.1⟩

/- ----------------------------------------------------------------------
JavaScript string-literal escaping (text/template's JSEscapeString, the
collaborator used at src/main.go lines 127 and 135).

Go's JSEscape walks the string rune by rune: the seven special ASCII
characters get dedicated escapes, other control bytes become a lowercase
"\u00XX" pair of hex digits, printable non-ASCII runes are copied
verbatim, and non-printable non-ASCII runes become "\uXXXX".  Whether a
non-ASCII rune is printable is `unicode.IsPrint`, passed in here as the
parameter `ip` (the claims hold for every choice of `ip`).
---------------------------------------------------------------------- -/

def hexDigit : Nat → Char
  | 0 => '0' | 1 => '1' | 2 => '2' | 3 => '3'
  | 4 => '4' | 5 => '5' | 6 => '6' | 7 => '7'
  | 8 => '8' | 9 => '9' | 10 => 'A' | 11 => 'B'
  | 12 => 'C' | 13 => 'D' | 14 => 'E' | _ => 'F'

/-- Big-endian hex digits of `n` (empty for 0); `fuel` bounds recursion. -/
def hexRepr : Nat → Nat → List Char
  | 0, _ => []
  | _, 0 => []
  | fuel + 1, n => hexRepr fuel (n / 16) ++ [hexDigit (n % 16)]

/-- `%04X`: uppercase hex, zero-padded to at least four digits. -/
def hex4 (n : Nat) : List Char :=
  List.replicate (4 - (if n = 0 then ['0'] else hexRepr n n).length) '0' ++
    (if n = 0 then ['0'] else hexRepr n n)

def jsIsSpecial (c : Char) : Bool :=
  c = '\\' || c = '\x27' || c = '\x22' || c = '<' || c = '>' || c = '&' ||
  c = '=' || c.toNat < 32 || 128 ≤ c.toNat

def jsEscapeChar (ip : Char → Bool) (c : Char) : List Char :=
  if jsIsSpecial c then
    if c.toNat < 128 then
      if c = '\x22' then ['\\', '\x22']
      else if c = '\\' then ['\\', '\\']
      else if c = '\x27' then ['\\', '\x27']
      else if c = '<' then ['\\', 'u', '0', '0', '3', 'C']
      else if c = '>' then ['\\', 'u', '0', '0', '3', 'E']
      else if c = '&' then ['\\', 'u', '0', '0', '2', '6']
      else if c = '=' then ['\\', 'u', '0', '0', '3', 'D']
      else ['\\', 'u', '0', '0', hexDigit (c.toNat / 16), hexDigit (c.toNat % 16)]
    else if ip c then [c]
    else ['\\', 'u'] ++ hex4 c.toNat
  else [c]

def jsEscapeString (ip : Char → Bool) (s : List Char) : List Char :=
  (s.map (jsEscapeChar ip)).flatten

/- ----------------------------------------------------------------------
strings.ReplaceAll (used at src/main.go lines 129 and 137): non-empty
pattern, non-overlapping left-to-right replacement, never rescanning the
inserted replacement text.  `fuel` makes the recursion structural; it is
instantiated with the length of the subject string, which every step
consumes at least one character of.
---------------------------------------------------------------------- -/

def isPrefixList : List Char → List Char → Bool
  | [], _ => true
  | _ :: _, [] => false
  | c :: p, d :: l => c = d && isPrefixList p l

def replaceAllAux (pat rep : List Char) : Nat → List Char → List Char
  | _, [] => []
  | 0, s => s
  | fuel + 1, c :: s =>
      if isPrefixList pat (c :: s) then
        rep ++ replaceAllAux pat rep fuel (List.drop pat.length (c :: s))
      else c :: replaceAllAux pat rep fuel s

def replaceAll (pat rep s : List Char) : List Char :=
  replaceAllAux pat rep s.length s

/- ----------------------------------------------------------------------
The bootstrap page template and its rendering (src/main.go lines 35-59 and
121-139).  Literal braces and apostrophes are written with hex escapes.
---------------------------------------------------------------------- -/

/-- The two template placeholders. -/
def argvPat : List Char := str "\x7b\x7b.Argv\x7d\x7d"

def envPat : List Char := str "\x7b\x7b.Env\x7d\x7d"

/-- Template text before `{{.Argv}}`. -/
def tmplA : List Char := str "<!DOCTYPE html>\n<script src=\x22wasm_exec.js\x22></script>\n<script>\n(async () => \x7b\n  const resp = await fetch(\x27main.wasm\x27);\n  if (!resp.ok) \x7b\n    const pre = document.createElement(\x27pre\x27);\n    pre.innerText = await resp.text();\n    document.body.appendChild(pre);\n  \x7d else \x7b\n    const src = await resp.arrayBuffer();\n    const go = new Go();\n    const result = await WebAssembly.instantiate(src, go.importObject);\n    go.argv = "

/-- Template text between `{{.Argv}}` and `{{.Env}}`. -/
def tmplB : List Char := str ";\n    go.env = "

/-- Template text after `{{.Env}}`. -/
def tmplC : List Char := str ";\n    go.run(result.instance);\n  \x7d\n  const reload = await fetch(\x27_wait\x27);\n  // The server sends a response for \x27_wait\x27 when a request is sent to \x27_notify\x27.\n  if (reload.ok) \x7b\n    location.reload();\n  \x7d\n\x7d)();\n</script>\n"

/-- `indexHTML` (src/main.go lines 35-59). -/
def indexHTMLdoc : List Char := tmplA ++ argvPat ++ tmplB ++ envPat ++ tmplC

/-- strings.Join. -/
def strJoin (sep : List Char) : List (List Char) → List Char
  | [] => []
  | [x] => x
  | x :: xs => x ++ sep ++ strJoin sep xs

/-- Go filepath.Join on Unix for the shapes this program uses: "." joined
with a relative name cleans to the name itself, otherwise the parts are
joined with a slash (no further Clean normalisation is needed for the
arguments the program passes). -/
def filepathJoin (a b : List Char) : List Char :=
  if a = [] then b
  else if a = str "." then b
  else a ++ '/' :: b

/-- One element of the rendered argv array: `"` + JSEscapeString(a) + `"`
(src/main.go line 127). -/
def argvElem (ip : Char → Bool) (a : List Char) : List Char :=
  '\x22' :: jsEscapeString ip a ++ ['\x22']

/-- The rendered argv array literal `[` + join(argv, ", ") + `]`
(src/main.go line 129). -/
def argvLiteral (ip : Char → Bool) (fargs : List (List Char)) : List Char :=
  '[' :: strJoin (str ", ") (fargs.map (argvElem ip)) ++ [']']

/-- One element of the rendered env object: SplitN(e, "=", 2), then
key + `: "` + JSEscapeString(value) + `"` (src/main.go lines 134-135).
`none` models the index-out-of-range panic on `split[1]` when the entry
contains no "=" (os.Environ entries always do). -/
def envEntry (ip : Char → Bool) (e : List Char) : Option (List Char) :=
  match e.dropWhile (fun c => !(c = '=')) with
  | [] => none
  | _ :: v =>
      some (e.takeWhile (fun c => !(c = '=')) ++ str ": \x22" ++
        jsEscapeString ip v ++ ['\x22'])

def envEntriesList (ip : Char → Bool) : List (List Char) → Option (List (List Char))
  | [] => some []
  | e :: es =>
      match envEntry ip e, envEntriesList ip es with
      | some x, some xs => some (x :: xs)
      | _, _ => none

/-- The rendered env object literal (src/main.go line 137). -/
def envLiteral (ip : Char → Bool) (environ : List (List Char)) : Option (List Char) :=
  (envEntriesList ip environ).map (fun l => '\x7b' :: strJoin (str ", ") l ++ ['\x7d'])

/-- The bootstrap-page rendering of src/main.go lines 121-139: default the
argv list to `<output>/main.wasm` when no positional arguments were given,
substitute `{{.Argv}}` first, then substitute `{{.Env}}` in the resulting
document. -/
def renderIndex (ip : Char → Bool) (flagArgs environ : List (List Char))
    (output : List Char) : Option (List Char) :=
  match envLiteral ip environ with
  | none => none
  | some envLit =>
      some (replaceAll envPat envLit
        (replaceAll argvPat
          (argvLiteral ip
            (if flagArgs = [] then [filepathJoin output (str "main.wasm")] else flagArgs))
          indexHTMLdoc))

/- ----------------------------------------------------------------------
Request routing (src/main.go lines 86-219).

The filesystem, the `go env GOROOT` query, `os.Executable`, and the build
subprocess are collaborators, modelled as oracle fields of `World`:
`stat p` answers `os.Stat(p)` (with `statError` for errors that are not
IsNotExist), `buildErr`/`buildOut` are the `CombinedOutput` result of the
`go run` build, and `artifactAfterBuild` is the result of opening
`<output>/main.wasm` after the build wrote it.  The CORS header (lines
87-89) and the build argument list (lines 172-188) do not affect any
claim and stay on the collaborator side of the boundary.
---------------------------------------------------------------------- -/

inductive StatR
  | file
  | dir
  | notExist
  | statError (msg : List Char)
deriving DecidableEq

structure World where
  stat : List Char → StatR
  tmpOutputDir : List Char
  tempDir : Except (List Char) (List Char)
  flagArgs : List (List Char)
  environ : List (List Char)
  isPrint : Char → Bool
  goroot : Except (List Char) (List Char)
  executable : Except (List Char) (List Char)
  buildErr : Bool
  buildOut : List Char
  /-- `os.Open` on a path after the build ran, carrying the full contents
  streamed by `http.ServeContent` on success (src/main.go lines 200-207). -/
  openFile : List Char → Except (List Char) (List Char)

/-- What the handler did with the response writer.  `serveFileJoinDot p`
is `http.ServeFile(w, r, filepath.Join(".", p))` (src/main.go line 218);
`serveFilePath` is `http.ServeFile` on an absolute path (line 154);
`serveContent name body` is `http.ServeContent`, which responds 200 with
the given body. -/
inductive HAction
  | httpError (status : Nat) (msg : List Char)
  | redirect (status : Nat) (loc : List Char)
  | serveContent (name : List Char) (body : List Char)
  | serveFileJoinDot (urlPath : List Char)
  | serveFilePath (p : List Char)
  | waitAction
  | notifyAction
  | panicAction
deriving DecidableEq

/-- Response status when the handler itself fixes it (delegated static
serving and the long-poll paths determine their own status). -/
def actionStatus : HAction → Option Nat
  | .httpError s _ => some s
  | .redirect s _ => some s
  | .serveContent _ _ => some 200
  | _ => none

/-- Response body when the handler itself fixes it. -/
def actionBody : HAction → Option (List Char)
  | .httpError _ m => some m
  | .serveContent _ b => some b
  | _ => none

structure HandleOut where
  action : HAction
  builds : Nat
deriving DecidableEq

/-- Go path.Base (src/main.go line 98 operates on slash-separated URL
paths): strip trailing slashes, keep the part after the last slash, with
"." for the empty path and "/" for all-slash paths. -/
def pathBase (p : List Char) : List Char :=
  if p = [] then str "."
  else
    match ((p.reverse.dropWhile (fun c => c = '/')).takeWhile
        (fun c => !(c = '/'))).reverse with
    | [] => ['/']
    | q => q

/-- Go filepath.Base on Unix (src/main.go line 112): same algorithm as
path.Base with the OS separator '/'. -/
def filepathBase (p : List Char) : List Char := pathBase p

/-- strings.HasSuffix(path, "/") (src/main.go line 100). -/
def endsWithSlash (p : List Char) : Bool :=
  match p.getLast? with
  | some c => c = '/'
  | none => false

/-- `case "index.html"` (src/main.go lines 116-141, also reached from
`case "."` after joining "index.html"). -/
def indexPart (w : World) (output fpath urlPath : List Char) : HandleOut :=
  match w.stat fpath with
  | .statError m => ⟨.httpError 500 m, 0⟩
  | .notExist =>
      match renderIndex w.isPrint w.flagArgs w.environ output with
      | some page => ⟨.serveContent (str "index.html") page, 0⟩
      | none => ⟨.panicAction, 0⟩
  | _ => ⟨.serveFileJoinDot urlPath, 0⟩

def isGoSpace (c : Char) : Bool :=
  c = ' ' || c = '\t' || c = '\n' || c = '\r' || c = '\x0b' || c = '\x0c'

/-- strings.TrimSpace restricted to the ASCII space characters Go treats
as space (the GOROOT output only ever carries these). -/
def trimSpaceGo (l : List Char) : List Char :=
  ((l.dropWhile isGoSpace).reverse.dropWhile isGoSpace).reverse

/-- `case "wasm_exec.js"` (src/main.go lines 142-156). -/
def wasmExecPart (w : World) (fpath urlPath : List Char) : HandleOut :=
  match w.stat fpath with
  | .statError m => ⟨.httpError 500 m, 0⟩
  | .notExist =>
      match w.goroot with
      | .error e => ⟨.httpError 500 e, 0⟩
      | .ok root =>
          ⟨.serveFilePath
            (filepathJoin (filepathJoin (filepathJoin (trimSpaceGo root)
              (str "misc")) (str "wasm")) (str "wasm_exec.js")), 0⟩
  | _ => ⟨.serveFileJoinDot urlPath, 0⟩

/-- `case "main.wasm"` (src/main.go lines 157-209): stat, then
os.Executable, then exactly one `go run` build, then open and stream the
artifact. -/
def mainWasmPart (w : World) (output fpath urlPath : List Char) : HandleOut :=
  match w.stat fpath with
  | .statError m => ⟨.httpError 500 m, 0⟩
  | .notExist =>
      match w.executable with
      | .error e => ⟨.httpError 500 e, 0⟩
      | .ok _ =>
          if w.buildErr then ⟨.httpError 500 w.buildOut, 1⟩
          else
            match w.openFile (filepathJoin output (str "main.wasm")) with
            | .error e => ⟨.httpError 500 e, 1⟩
            | .ok bytes => ⟨.serveContent (str "main.wasm") bytes, 1⟩
  | _ => ⟨.serveFileJoinDot urlPath, 0⟩

/-- The `switch filepath.Base(fpath)` dispatch (src/main.go lines
112-218); falling out of the switch serves the file at
filepath.Join(".", r.URL.Path). -/
def switchPart (w : World) (output fpath urlPath : List Char) : HandleOut :=
  if filepathBase fpath = str "." then
    indexPart w output (filepathJoin fpath (str "index.html")) urlPath
  else if filepathBase fpath = str "index.html" then
    indexPart w output fpath urlPath
  else if filepathBase fpath = str "wasm_exec.js" then
    wasmExecPart w fpath urlPath
  else if filepathBase fpath = str "main.wasm" then
    mainWasmPart w output fpath urlPath
  else if filepathBase fpath = str "_wait" then ⟨.waitAction, 0⟩
  else if filepathBase fpath = str "_notify" then ⟨.notifyAction, 0⟩
  else ⟨.serveFileJoinDot urlPath, 0⟩

/-- The request handler `handle` (src/main.go lines 86-219) on the request
URL path. -/
def handle (w : World) (urlPath : List Char) : HandleOut :=
  match ensureTmpOutputDir w.tmpOutputDir w.tempDir with
  | .error e => ⟨.httpError 500 e, 0⟩
  | .ok (output, _, _) =>
      let fpath := pathBase (urlPath.drop 1)
      if endsWithSlash urlPath then switchPart w output fpath urlPath
      else
        match w.stat fpath with
        | .statError m => ⟨.httpError 500 m, 0⟩
        | .dir => ⟨.redirect 303 (urlPath ++ ['/']), 0⟩
        | _ => switchPart w output fpath urlPath

/- ----------------------------------------------------------------------
Facts about path.Base / filepath.Base needed by the routing claims.
---------------------------------------------------------------------- -/

theorem pathBase_shape (p : List Char) :
    pathBase p = str "." ∨ pathBase p = ['/'] ∨
      (pathBase p ≠ [] ∧ ∀ c ∈ pathBase p, ¬ c = '/') := by
  unfold pathBase
  split
  · exact .inl rfl
  · cases hdisc : ((p.reverse.dropWhile (fun c => c = '/')).takeWhile
        (fun c => !(c = '/'))).reverse with
    | nil => exact .inr (.inl rfl)
    | cons c t =>
        refine .inr (.inr ⟨by simp, ?_⟩)
        intro x hx
        have hx' : x ∈ c :: t := hx
        have hx2 : x ∈ (p.reverse.dropWhile (fun c => c = '/')).takeWhile
            (fun c => !(c = '/')) := by
          rw [← List.mem_reverse, hdisc]
          exact hx'
        have := List.mem_takeWhile_imp hx2
        simpa using this

theorem pathBase_of_no_slash (q : List Char) (hne : q ≠ [])
    (hmem : ∀ c ∈ q, ¬ c = '/') : pathBase q = q := by
  unfold pathBase
  rw [if_neg hne]
  have h1 : q.reverse.dropWhile (fun c => c = '/') = q.reverse := by
    cases hq : q.reverse with
    | nil => simp
    | cons c t =>
        have hc : c ∈ q := by
          rw [← List.mem_reverse, hq]
          exact List.mem_cons_self c t
        rw [List.dropWhile_cons]
        simp [hmem c hc]
  rw [h1]
  have h2 : q.reverse.takeWhile (fun c => !(c = '/')) = q.reverse := by
    rw [List.takeWhile_eq_self_iff]
    intro x hx
    simp [hmem x (List.mem_reverse.mp hx)]
  rw [h2, List.reverse_reverse]
  cases q with
  | nil => exact absurd rfl hne
  | cons c t => rfl

theorem filepathBase_pathBase (p : List Char) :
    filepathBase (pathBase p) = pathBase p := by
  rcases pathBase_shape p with h | h | ⟨h1, h2⟩
  · rw [h]; decide
  · rw [h]; decide
  · unfold filepathBase
    exact pathBase_of_no_slash _ h1 h2

/-- Behaviour of the switch when the stat of the (non-".") base name finds
an existing file: every file-serving case skips its miss-branch and falls
out of the switch to static serving; only the two reload-control cases act
without a stat. -/
theorem switchPart_file (w : World) (output fpath urlPath : List Char)
    (hb : filepathBase fpath = fpath) (hdot : fpath ≠ str ".")
    (hfile : w.stat fpath = .file) :
    switchPart w output fpath urlPath =
      if fpath = str "_wait" then ⟨.waitAction, 0⟩
      else if fpath = str "_notify" then ⟨.notifyAction, 0⟩
      else ⟨.serveFileJoinDot urlPath, 0⟩ := by
  unfold switchPart
  rw [hb]
  rw [if_neg hdot]
  by_cases h1 : fpath = str "index.html"
  · subst h1
    rw [if_pos rfl]
    unfold indexPart
    rw [hfile]
    rw [if_neg (by decide : ¬ str "index.html" = str "_wait"),
        if_neg (by decide : ¬ str "index.html" = str "_notify")]
  · rw [if_neg h1]
    by_cases h2 : fpath = str "wasm_exec.js"
    · subst h2
      rw [if_pos rfl]
      unfold wasmExecPart
      rw [hfile]
      rw [if_neg (by decide : ¬ str "wasm_exec.js" = str "_wait"),
          if_neg (by decide : ¬ str "wasm_exec.js" = str "_notify")]
    · rw [if_neg h2]
      by_cases h3 : fpath = str "main.wasm"
      · subst h3
        rw [if_pos rfl]
        unfold mainWasmPart
        rw [hfile]
        rw [if_neg (by decide : ¬ str "main.wasm" = str "_wait"),
            if_neg (by decide : ¬ str "main.wasm" = str "_notify")]
      · rw [if_neg h3]

/-- Evaluation of `handle` once the output directory is ensured. -/
theorem handle_eq (w : World) (urlPath out : List Char)
    (hens : ensureTmpOutputDir w.tmpOutputDir w.tempDir = .ok (out, out, false)) :
    handle w urlPath =
      if endsWithSlash urlPath then
        switchPart w out (pathBase (urlPath.drop 1)) urlPath
      else
        match w.stat (pathBase (urlPath.drop 1)) with
        | .statError m => ⟨.httpError 500 m, 0⟩
        | .dir => ⟨.redirect 303 (urlPath ++ ['/']), 0⟩
        | _ => switchPart w out (pathBase (urlPath.drop 1)) urlPath := by
  unfold handle
  rw [hens]

/-- Claim C4 (amended): the handler's existence checks use only the final
path segment (path.Base of the URL path) resolved against the working
directory; for every request whose base name (other than ".") exists there
as a regular file, the build collaborator is never invoked, and unless the
base name is one of the two reload-control names the request falls through
to static file serving. -/
theorem existing_basename_file_skips_build
    (w : World) (urlPath fpath : List Char)
    (hout : w.tmpOutputDir ≠ [])
    (hfp : fpath = pathBase (urlPath.drop 1))
    (hdot : fpath ≠ str ".")
    (hfile : w.stat fpath = .file) :
    (handle w urlPath).builds = 0 ∧
    (fpath ≠ str "_wait" → fpath ≠ str "_notify" →
      (handle w urlPath).action = .serveFileJoinDot urlPath) := by
  have hens : ensureTmpOutputDir w.tmpOutputDir w.tempDir =
      .ok (w.tmpOutputDir, w.tmpOutputDir, false) := by
    unfold ensureTmpOutputDir
    rw [if_pos hout]
  have hb : filepathBase fpath = fpath := by
    rw [hfp]; exact filepathBase_pathBase _
  have hsw := switchPart_file w w.tmpOutputDir fpath urlPath hb hdot hfile
  have hred : handle w urlPath = switchPart w w.tmpOutputDir fpath urlPath := by
    rw [handle_eq w urlPath w.tmpOutputDir hens, ← hfp]
    cases endsWithSlash urlPath
    · show (match w.stat fpath with
        | .statError m => (⟨.httpError 500 m, 0⟩ : HandleOut)
        | .dir => ⟨.redirect 303 (urlPath ++ ['/']), 0⟩
        | _ => switchPart w w.tmpOutputDir fpath urlPath) = _
      rw [hfile]
    · rfl
  rw [hred, hsw]
  constructor
  · split_ifs <;> rfl
  · intro hw hn
    rw [if_neg hw, if_neg hn]

/-- A world where `./x.txt` exists as a regular file. -/
def worldC4w : World where
  stat := fun p => if p = str "x.txt" then .file else .notExist
  tmpOutputDir := str "/tmp/out"
  tempDir := .ok (str "/tmp/out")
  flagArgs := []
  environ := []
  isPrint := fun _ => true
  goroot := .ok (str "/goroot")
  executable := .ok (str "/proc/self/exe")
  buildErr := false
  buildOut := []
  openFile := fun _ => .error (str "no such file")

theorem existing_basename_file_skips_build_inst :
    (handle worldC4w (str "/x.txt")).builds = 0 ∧
    (handle worldC4w (str "/x.txt")).action = .serveFileJoinDot (str "/x.txt") :=
  ⟨(existing_basename_file_skips_build worldC4w (str "/x.txt") (str "x.txt")
      (by decide) (by decide) (by decide) (by decide)).1,
   (existing_basename_file_skips_build worldC4w (str "/x.txt") (str "x.txt")
      (by decide) (by decide) (by decide) (by decide)).2 (by decide) (by decide)⟩

/-- A world where the request path `./sub/main.wasm` exists as a regular
file but the working directory holds no `./main.wasm`. -/
def worldC4 : World where
  stat := fun p => if p = str "sub/main.wasm" then .file else .notExist
  tmpOutputDir := str "/tmp/out"
  tempDir := .ok (str "/tmp/out")
  flagArgs := []
  environ := []
  isPrint := fun _ => true
  goroot := .ok (str "/goroot")
  executable := .ok (str "/proc/self/exe")
  buildErr := false
  buildOut := []
  openFile := fun p =>
    if p = str "/tmp/out/main.wasm" then .ok (str "built-bytes")
    else .error (str "no such file")

/-- Claim C4 (counterexample): the request path `/sub/main.wasm` exists as
a file on local disk (`./sub/main.wasm`), yet the handler — which stats
only the base name `main.wasm` in the working directory — invokes the
build collaborator for it. -/
theorem existing_file_request_can_still_build :
    worldC4.stat (str "sub/main.wasm") = .file ∧
    (handle worldC4 (str "/sub/main.wasm")).builds = 1 ∧
    ¬ (handle worldC4 (str "/sub/main.wasm")).builds = 0 := by
  refine ⟨rfl, ?_, ?_⟩ <;> decide

/-- Claim C5 (amended): a request whose URL does not end in a slash and
whose final path segment (path.Base), resolved against the working
directory, is an existing directory is answered with a 303 redirect to the
same URL with a trailing slash — never with a 404 and without invoking the
build. -/
theorem dir_basename_without_slash_redirects_303
    (w : World) (urlPath fpath : List Char)
    (hout : w.tmpOutputDir ≠ [])
    (hsl : endsWithSlash urlPath = false)
    (hfp : fpath = pathBase (urlPath.drop 1))
    (hdir : w.stat fpath = .dir) :
    handle w urlPath = ⟨.redirect 303 (urlPath ++ ['/']), 0⟩ ∧
    actionStatus (handle w urlPath).action = some 303 ∧
    actionStatus (handle w urlPath).action ≠ some 404 := by
  have hens : ensureTmpOutputDir w.tmpOutputDir w.tempDir =
      .ok (w.tmpOutputDir, w.tmpOutputDir, false) := by
    unfold ensureTmpOutputDir
    rw [if_pos hout]
  have hred : handle w urlPath = ⟨.redirect 303 (urlPath ++ ['/']), 0⟩ := by
    rw [handle_eq w urlPath w.tmpOutputDir hens, hsl, ← hfp, hdir]
    rfl
  refine ⟨hred, ?_, ?_⟩ <;> simp [hred, actionStatus]

/-- A world where `./docs` is a directory in the working directory. -/
def worldC5w : World where
  stat := fun p => if p = str "docs" then .dir else .notExist
  tmpOutputDir := str "/tmp/out"
  tempDir := .ok (str "/tmp/out")
  flagArgs := []
  environ := []
  isPrint := fun _ => true
  goroot := .ok (str "/goroot")
  executable := .ok (str "/proc/self/exe")
  buildErr := false
  buildOut := []
  openFile := fun _ => .error (str "no such file")

theorem dir_basename_without_slash_redirects_303_inst :
    handle worldC5w (str "/docs") = ⟨.redirect 303 (str "/docs/"), 0⟩ :=
  ((dir_basename_without_slash_redirects_303 worldC5w (str "/docs") (str "docs")
      (by decide) (by decide) (by decide) (by decide)).1).trans (by decide)

/-- A world where `./a/b` is an existing directory but the working
directory holds no entry named `b`. -/
def worldC5 : World where
  stat := fun p => if p = str "a/b" then .dir else .notExist
  tmpOutputDir := str "/tmp/out"
  tempDir := .ok (str "/tmp/out")
  flagArgs := []
  environ := []
  isPrint := fun _ => true
  goroot := .ok (str "/goroot")
  executable := .ok (str "/proc/self/exe")
  buildErr := false
  buildOut := []
  openFile := fun _ => .error (str "no such file")

/-- Claim C5 (counterexample): the URL `/a/b` does not end in a slash and
its corresponding local path `./a/b` is an existing directory, yet the
handler — which stats only the base name `b` — does not redirect: it
delegates to static file serving instead of responding 303. -/
theorem existing_dir_deep_path_not_redirected :
    worldC5.stat (str "a/b") = .dir ∧
    endsWithSlash (str "/a/b") = false ∧
    handle worldC5 (str "/a/b") = ⟨.serveFileJoinDot (str "/a/b"), 0⟩ ∧
    (handle worldC5 (str "/a/b")).action ≠ .redirect 303 (str "/a/b/") := by
  refine ⟨rfl, rfl, ?_, ?_⟩ <;> decide

/-- Claim C3: requesting `/main.wasm` when no file `main.wasm` exists in
the working directory triggers exactly one build; a failing build is
answered 500 with the build's combined stdout+stderr verbatim as the body,
a successful build is answered 200 with the artifact bytes opened from
`<output>/main.wasm` as the body. -/
theorem artifact_request_builds_once_and_reports
    (w : World) (exc : List Char)
    (hout : w.tmpOutputDir ≠ [])
    (hstat : w.stat (str "main.wasm") = .notExist)
    (hexe : w.executable = .ok exc) :
    (handle w (str "/main.wasm")).builds = 1 ∧
    (w.buildErr = true →
      handle w (str "/main.wasm") = ⟨.httpError 500 w.buildOut, 1⟩ ∧
      actionStatus (handle w (str "/main.wasm")).action = some 500 ∧
      actionBody (handle w (str "/main.wasm")).action = some w.buildOut) ∧
    (∀ bytes, w.buildErr = false →
      w.openFile (filepathJoin w.tmpOutputDir (str "main.wasm")) = .ok bytes →
      handle w (str "/main.wasm") = ⟨.serveContent (str "main.wasm") bytes, 1⟩ ∧
      actionStatus (handle w (str "/main.wasm")).action = some 200 ∧
      actionBody (handle w (str "/main.wasm")).action = some bytes) := by
  have hens : ensureTmpOutputDir w.tmpOutputDir w.tempDir =
      .ok (w.tmpOutputDir, w.tmpOutputDir, false) := by
    unfold ensureTmpOutputDir
    rw [if_pos hout]
  have hred : handle w (str "/main.wasm") =
      mainWasmPart w w.tmpOutputDir (str "main.wasm") (str "/main.wasm") := by
    rw [handle_eq w (str "/main.wasm") w.tmpOutputDir hens]
    rw [(by decide : endsWithSlash (str "/main.wasm") = false)]
    rw [(by decide : pathBase ((str "/main.wasm").drop 1) = str "main.wasm")]
    rw [hstat]
    show switchPart w w.tmpOutputDir (str "main.wasm") (str "/main.wasm") = _
    unfold switchPart
    rw [(by decide : filepathBase (str "main.wasm") = str "main.wasm")]
    rw [if_neg (by decide : ¬ str "main.wasm" = str "."),
        if_neg (by decide : ¬ str "main.wasm" = str "index.html"),
        if_neg (by decide : ¬ str "main.wasm" = str "wasm_exec.js"),
        if_pos rfl]
  have hmw : mainWasmPart w w.tmpOutputDir (str "main.wasm") (str "/main.wasm") =
      (if w.buildErr then ⟨.httpError 500 w.buildOut, 1⟩
       else
        match w.openFile (filepathJoin w.tmpOutputDir (str "main.wasm")) with
        | .error e => ⟨.httpError 500 e, 1⟩
        | .ok bytes => ⟨.serveContent (str "main.wasm") bytes, 1⟩ : HandleOut) := by
    unfold mainWasmPart
    rw [hstat, hexe]
  refine ⟨?_, ?_, ?_⟩
  · rw [hred, hmw]
    cases hb : w.buildErr
    · simp only [Bool.false_eq_true, if_false]
      cases ho : w.openFile (filepathJoin w.tmpOutputDir (str "main.wasm")) <;> rfl
    · rfl
  · intro hb
    rw [hred, hmw, hb]
    exact ⟨rfl, rfl, rfl⟩
  · intro bytes hb ho
    rw [hred, hmw, hb, ho]
    exact ⟨rfl, rfl, rfl⟩

/-- A world with no `./main.wasm`, a failing build with diagnostic text. -/
def worldC3w : World where
  stat := fun _ => .notExist
  tmpOutputDir := str "/tmp/out"
  tempDir := .ok (str "/tmp/out")
  flagArgs := []
  environ := []
  isPrint := fun _ => true
  goroot := .ok (str "/goroot")
  executable := .ok (str "/proc/self/exe")
  buildErr := true
  buildOut := str "main.go:3:1: syntax error"
  openFile := fun _ => .error (str "no such file")

theorem artifact_request_builds_once_and_reports_inst :
    (handle worldC3w (str "/main.wasm")).builds = 1 ∧
    handle worldC3w (str "/main.wasm") =
      ⟨.httpError 500 (str "main.go:3:1: syntax error"), 1⟩ :=
  ⟨(artifact_request_builds_once_and_reports worldC3w (str "/proc/self/exe")
      (by decide) (by decide) rfl).1,
   ((artifact_request_builds_once_and_reports worldC3w (str "/proc/self/exe")
      (by decide) (by decide) rfl).2.1 (by decide)).1⟩


/- ----------------------------------------------------------------------
JS string-body scanning: `scanJSBody l = true` says that reading `l` as
the body of a double-quoted JavaScript string literal never meets a bare
(unescaped) double quote — every backslash consumes the next character as
part of an escape sequence.  This is the formal sense in which a
double-quote character appears "only in escaped form".
---------------------------------------------------------------------- -/

def scanJSBody : List Char → Bool
  | [] => true
  | '\\' :: [] => false
  | '\\' :: _ :: rest2 => scanJSBody rest2
  | c :: rest => if c = '\x22' then false else scanJSBody rest

theorem scanJSBody_esc (x : Char) (l : List Char) :
    scanJSBody ('\\' :: x :: l) = scanJSBody l := rfl

theorem scanJSBody_cons_plain (c : Char) (l : List Char)
    (h1 : ¬ c = '\\') (h2 : ¬ c = '\x22') :
    scanJSBody (c :: l) = scanJSBody l := by
  simp [scanJSBody, h1, h2]

theorem scan_plain_append (l rest : List Char)
    (h : ∀ c ∈ l, ¬ c = '\\' ∧ ¬ c = '\x22') :
    scanJSBody (l ++ rest) = scanJSBody rest := by
  induction l with
  | nil => rfl
  | cons c t ih =>
      have hc := h c (List.mem_cons_self c t)
      rw [List.cons_append, scanJSBody_cons_plain c (t ++ rest) hc.1 hc.2]
      exact ih (fun x hx => h x (List.mem_cons_of_mem c hx))

theorem hexDigit_not_special (n : Nat) :
    ¬ hexDigit n = '\\' ∧ ¬ hexDigit n = '\x22' := by
  unfold hexDigit
  split <;> exact ⟨by decide, by decide⟩

theorem hexRepr_not_special (f n : Nat) :
    ∀ c ∈ hexRepr f n, ¬ c = '\\' ∧ ¬ c = '\x22' := by
  induction f generalizing n with
  | zero => intro c hc; simp [hexRepr] at hc
  | succ k ih =>
      intro c hc
      cases n with
      | zero => simp [hexRepr] at hc
      | succ m =>
          simp only [hexRepr, List.mem_append, List.mem_singleton] at hc
          rcases hc with h | h
          · exact ih _ c h
          · rw [h]
            exact hexDigit_not_special _

theorem hex4_not_special (n : Nat) :
    ∀ c ∈ hex4 n, ¬ c = '\\' ∧ ¬ c = '\x22' := by
  intro c hc
  unfold hex4 at hc
  rcases List.mem_append.mp hc with h | h
  · rw [List.eq_of_mem_replicate h]
    exact ⟨by decide, by decide⟩
  · by_cases hn : n = 0
    · rw [if_pos hn] at h
      rw [List.mem_singleton] at h
      rw [h]
      exact ⟨by decide, by decide⟩
    · rw [if_neg hn] at h
      exact hexRepr_not_special n n c h

theorem scan_escChar (ip : Char → Bool) (c : Char) (rest : List Char) :
    scanJSBody (jsEscapeChar ip c ++ rest) = scanJSBody rest := by
  unfold jsEscapeChar
  by_cases hs : jsIsSpecial c = true
  · rw [if_pos hs]
    by_cases h128 : c.toNat < 128
    · rw [if_pos h128]
      by_cases h1 : c = '\x22'
      · rw [if_pos h1]
        exact scanJSBody_esc _ _
      rw [if_neg h1]
      by_cases h2 : c = '\\'
      · rw [if_pos h2]
        exact scanJSBody_esc _ _
      rw [if_neg h2]
      by_cases h3 : c = '\x27'
      · rw [if_pos h3]
        exact scanJSBody_esc _ _
      rw [if_neg h3]
      by_cases h4 : c = '<'
      · rw [if_pos h4]
        exact (scanJSBody_esc _ _).trans
          (scan_plain_append ['0', '0', '3', 'C'] rest (by decide))
      rw [if_neg h4]
      by_cases h5 : c = '>'
      · rw [if_pos h5]
        exact (scanJSBody_esc _ _).trans
          (scan_plain_append ['0', '0', '3', 'E'] rest (by decide))
      rw [if_neg h5]
      by_cases h6 : c = '&'
      · rw [if_pos h6]
        exact (scanJSBody_esc _ _).trans
          (scan_plain_append ['0', '0', '2', '6'] rest (by decide))
      rw [if_neg h6]
      by_cases h7 : c = '='
      · rw [if_pos h7]
        exact (scanJSBody_esc _ _).trans
          (scan_plain_append ['0', '0', '3', 'D'] rest (by decide))
      rw [if_neg h7]
      exact (scanJSBody_esc _ _).trans
        (scan_plain_append
          ['0', '0', hexDigit (c.toNat / 16), hexDigit (c.toNat % 16)] rest
          (by
            intro x hx
            simp only [List.mem_cons, List.not_mem_nil, or_false] at hx
            rcases hx with rfl | rfl | rfl | rfl
            · exact ⟨by decide, by decide⟩
            · exact ⟨by decide, by decide⟩
            · exact hexDigit_not_special _
            · exact hexDigit_not_special _))
    · rw [if_neg h128]
      by_cases hp : ip c = true
      · rw [if_pos hp]
        refine scanJSBody_cons_plain c rest ?_ ?_
        · intro he
          rw [he] at h128
          exact h128 (by decide)
        · intro he
          rw [he] at h128
          exact h128 (by decide)
      · rw [if_neg hp]
        exact (scanJSBody_esc _ _).trans
          (scan_plain_append (hex4 c.toNat) rest (hex4_not_special _))
  · rw [if_neg hs]
    have h1 : ¬ c = '\\' := by
      intro he
      rw [he] at hs
      exact hs (by decide)
    have h2 : ¬ c = '\x22' := by
      intro he
      rw [he] at hs
      exact hs (by decide)
    exact scanJSBody_cons_plain c rest h1 h2

theorem jsEscapeString_cons (ip : Char → Bool) (c : Char) (s : List Char) :
    jsEscapeString ip (c :: s) = jsEscapeChar ip c ++ jsEscapeString ip s := by
  simp [jsEscapeString]

theorem jsEscapeString_append (ip : Char → Bool) (x y : List Char) :
    jsEscapeString ip (x ++ y) = jsEscapeString ip x ++ jsEscapeString ip y := by
  simp [jsEscapeString]

theorem scan_escString (ip : Char → Bool) (s rest : List Char) :
    scanJSBody (jsEscapeString ip s ++ rest) = scanJSBody rest := by
  induction s with
  | nil => rfl
  | cons c t ih =>
      rw [jsEscapeString_cons, List.append_assoc, scan_escChar]
      exact ih

/-- No unescaped double quote ever appears in JSEscapeString output. -/
theorem scan_escString_true (ip : Char → Bool) (s : List Char) :
    scanJSBody (jsEscapeString ip s) = true := by
  have h := scan_escString ip s []
  rw [List.append_nil] at h
  exact h

theorem jsEscapeChar_quote (ip : Char → Bool) :
    jsEscapeChar ip '\x22' = ['\\', '\x22'] := rfl

/-- A double quote inside an argv element shows up in the escaped output
as the two-character sequence backslash-quote. -/
theorem esc_contains_escaped_quote (ip : Char → Bool) (a : List Char)
    (h : '\x22' ∈ a) : occursIn ['\\', '\x22'] (jsEscapeString ip a) := by
  obtain ⟨s, t, rfl⟩ := List.append_of_mem h
  refine ⟨jsEscapeString ip s, jsEscapeString ip t, ?_⟩
  rw [jsEscapeString_append, jsEscapeString_cons, jsEscapeChar_quote]
  simp [List.append_assoc]

/- ----------------------------------------------------------------------
Properties of replaceAll.
---------------------------------------------------------------------- -/

theorem replaceAllAux_nil (pat rep : List Char) (f : Nat) :
    replaceAllAux pat rep f [] = [] := by
  cases f <;> rfl

theorem isPrefixList_append_self (p t : List Char) :
    isPrefixList p (p ++ t) = true := by
  induction p with
  | nil => rfl
  | cons c q ih => simp [isPrefixList, ih]

theorem isPrefixList_exists (p l : List Char) :
    isPrefixList p l = true ↔ ∃ t, l = p ++ t := by
  constructor
  · intro h
    induction p generalizing l with
    | nil => exact ⟨l, rfl⟩
    | cons c q ih =>
        cases l with
        | nil => simp [isPrefixList] at h
        | cons d m =>
            simp only [isPrefixList, Bool.and_eq_true, decide_eq_true_eq] at h
            obtain ⟨t, rfl⟩ := ih m h.2
            exact ⟨t, by rw [h.1]; rfl⟩
  · rintro ⟨t, rfl⟩
    exact isPrefixList_append_self p t

theorem replaceAllAux_fuel (pat rep : List Char) (hpat : pat ≠ []) :
    ∀ f1 f2 s, s.length ≤ f1 → s.length ≤ f2 →
      replaceAllAux pat rep f1 s = replaceAllAux pat rep f2 s := by
  intro f1
  induction f1 with
  | zero =>
      intro f2 s h1 _
      have hs : s = [] := List.eq_nil_of_length_eq_zero (Nat.le_zero.mp h1)
      subst hs
      rw [replaceAllAux_nil, replaceAllAux_nil]
  | succ k ih =>
      intro f2 s h1 h2
      cases s with
      | nil => rw [replaceAllAux_nil, replaceAllAux_nil]
      | cons c t =>
          cases f2 with
          | zero =>
              exact absurd h2 (by simp)
          | succ k2 =>
              show (if isPrefixList pat (c :: t) = true then
                  rep ++ replaceAllAux pat rep k (List.drop pat.length (c :: t))
                else c :: replaceAllAux pat rep k t) =
                (if isPrefixList pat (c :: t) = true then
                  rep ++ replaceAllAux pat rep k2 (List.drop pat.length (c :: t))
                else c :: replaceAllAux pat rep k2 t)
              have hlen : pat.length ≥ 1 := by
                cases pat with
                | nil => exact absurd rfl hpat
                | cons _ _ => simp
              by_cases hm : isPrefixList pat (c :: t) = true
              · rw [if_pos hm, if_pos hm]
                have hd : (List.drop pat.length (c :: t)).length ≤ k := by
                  rw [List.length_drop]
                  simp only [List.length_cons] at h1 ⊢
                  omega
                have hd2 : (List.drop pat.length (c :: t)).length ≤ k2 := by
                  rw [List.length_drop]
                  simp only [List.length_cons] at h2 ⊢
                  omega
                rw [ih _ _ hd hd2]
              · rw [if_neg hm, if_neg hm]
                have ht : t.length ≤ k := by
                  simp only [List.length_cons] at h1
                  omega
                have ht2 : t.length ≤ k2 := by
                  simp only [List.length_cons] at h2
                  omega
                rw [ih _ _ ht ht2]

theorem replaceAll_cons_nomatch (pat rep : List Char) (c : Char) (s : List Char)
    (_hpat : pat ≠ []) (hm : ¬ isPrefixList pat (c :: s) = true) :
    replaceAll pat rep (c :: s) = c :: replaceAll pat rep s := by
  unfold replaceAll
  show (if isPrefixList pat (c :: s) = true then
      rep ++ replaceAllAux pat rep s.length (List.drop pat.length (c :: s))
    else c :: replaceAllAux pat rep s.length s) = _
  rw [if_neg hm]

theorem replaceAll_head_match (pat rep b : List Char) (hpat : pat ≠ []) :
    replaceAll pat rep (pat ++ b) = rep ++ replaceAll pat rep b := by
  obtain ⟨p0, pt, rfl⟩ : ∃ p0 pt, pat = p0 :: pt := by
    cases pat with
    | nil => exact absurd rfl hpat
    | cons x y => exact ⟨x, y, rfl⟩
  unfold replaceAll
  show (if isPrefixList (p0 :: pt) (p0 :: (pt ++ b)) = true then
      rep ++ replaceAllAux (p0 :: pt) rep (pt ++ b).length
        (List.drop (p0 :: pt).length (p0 :: (pt ++ b)))
    else p0 :: replaceAllAux (p0 :: pt) rep (pt ++ b).length (pt ++ b)) =
    rep ++ replaceAllAux (p0 :: pt) rep b.length b
  have hpre : isPrefixList (p0 :: pt) (p0 :: (pt ++ b)) = true := by
    have h := isPrefixList_append_self (p0 :: pt) b
    simpa using h
  rw [if_pos hpre]
  have hdrop : List.drop (p0 :: pt).length (p0 :: (pt ++ b)) = b := by
    have h := List.drop_left (p0 :: pt) b
    simp only [List.cons_append] at h
    exact h
  rw [hdrop]
  congr 1
  apply replaceAllAux_fuel (p0 :: pt) rep (by simp)
  · simp
  · exact Nat.le_refl _

/-- No position strictly inside `a` starts a match of `pat` in `a ++ pat ++ ?`:
the decidable guard justifying that the first replacement in
`a ++ pat ++ b` happens exactly at the end of `a`.  (A prefix check that
starts inside `a` sees at most `a.drop i ++ pat`, so the condition does
not depend on what follows the occurrence.) -/
def cleanBefore (pat : List Char) : List Char → Bool
  | [] => true
  | c :: a => !(isPrefixList pat ((c :: a) ++ pat)) && cleanBefore pat a

theorem isPrefixList_of_append_left (p x y : List Char)
    (h : isPrefixList p (x ++ y) = true) (hlen : p.length ≤ x.length) :
    isPrefixList p x = true := by
  induction p generalizing x with
  | nil => rfl
  | cons c q ih =>
      cases x with
      | nil => simp at hlen
      | cons d m =>
          simp only [List.cons_append, isPrefixList, Bool.and_eq_true,
            decide_eq_true_eq] at h ⊢
          exact ⟨h.1, ih m h.2 (by simpa using hlen)⟩

/-- Left-to-right replacement across the first occurrence: if no match of
`pat` starts inside `a`, then `replaceAll` on `a ++ pat ++ b` keeps `a`,
replaces that occurrence, and continues in `b` only. -/
theorem replaceAll_split (pat rep : List Char) (hpat : pat ≠ []) :
    ∀ a b, cleanBefore pat a = true →
      replaceAll pat rep (a ++ pat ++ b) = a ++ rep ++ replaceAll pat rep b := by
  intro a
  induction a with
  | nil =>
      intro b _
      simp only [List.nil_append]
      exact replaceAll_head_match pat rep b hpat
  | cons c a' ih =>
      intro b hclean
      simp only [cleanBefore, Bool.and_eq_true, Bool.not_eq_true'] at hclean
      have hnm : ¬ isPrefixList pat ((c :: a') ++ pat ++ b) = true := by
        intro hcontra
        have : isPrefixList pat ((c :: a') ++ pat) = true := by
          apply isPrefixList_of_append_left pat ((c :: a') ++ pat) b
          · simpa using hcontra
          · simp only [List.length_append, List.length_cons]
            omega
        rw [hclean.1] at this
        cases this
      have hstep := replaceAll_cons_nomatch pat rep c (a' ++ pat ++ b) hpat
        (by simpa using hnm)
      calc replaceAll pat rep ((c :: a') ++ pat ++ b)
          = c :: replaceAll pat rep (a' ++ pat ++ b) := by
            simpa using hstep
        _ = c :: (a' ++ rep ++ replaceAll pat rep b) := by rw [ih b hclean.2]
        _ = (c :: a') ++ rep ++ replaceAll pat rep b := by simp

/-- Decidable occurrence test for a pattern. -/
def hasMatch (pat : List Char) : List Char → Bool
  | [] => false
  | c :: s => isPrefixList pat (c :: s) || hasMatch pat s

theorem replaceAll_no_match (pat rep : List Char) :
    ∀ s, hasMatch pat s = false → replaceAll pat rep s = s := by
  intro s
  induction s with
  | nil => intro _; rfl
  | cons c t ih =>
      intro h
      simp only [hasMatch, Bool.or_eq_false_iff] at h
      have hpat : pat ≠ [] := by
        intro he
        rw [he] at h
        cases h.1
      rw [replaceAll_cons_nomatch pat rep c t hpat (by simp [h.1])]
      rw [ih h.2]

theorem occursIn_replaceAll (pat rep : List Char) (hpat : pat ≠ []) :
    ∀ s, hasMatch pat s = true → occursIn rep (replaceAll pat rep s) := by
  intro s
  induction s with
  | nil => intro h; cases h
  | cons c t ih =>
      intro h
      by_cases hm : isPrefixList pat (c :: t) = true
      · obtain ⟨u, hu⟩ := (isPrefixList_exists pat (c :: t)).mp hm
        rw [hu, replaceAll_head_match pat rep u hpat]
        exact ⟨[], replaceAll pat rep u, by simp⟩
      · have ht : hasMatch pat t = true := by
          simp only [hasMatch, Bool.or_eq_true] at h
          rcases h with h | h
          · exact absurd h hm
          · exact h
        obtain ⟨x, y, hxy⟩ := ih ht
        rw [replaceAll_cons_nomatch pat rep c t hpat hm, hxy]
        exact ⟨c :: x, y, rfl⟩

theorem hasMatch_of_occursIn (pat : List Char) :
    ∀ a b s, s = a ++ pat ++ b → pat ≠ [] → hasMatch pat s = true := by
  intro a
  induction a with
  | nil =>
      intro b s hs hpat
      cases hp : pat with
      | nil => exact absurd hp hpat
      | cons p0 pt =>
          subst hs
          simp only [List.nil_append, hp, List.cons_append, hasMatch,
            Bool.or_eq_true]
          left
          rw [← List.cons_append, ← hp]
          exact isPrefixList_append_self pat b
  | cons c a' ih =>
      intro b s hs hpat
      subst hs
      simp only [List.cons_append, hasMatch, Bool.or_eq_true]
      right
      exact ih b _ rfl hpat

theorem occursIn_cons (x l : List Char) (c : Char)
    (h : occursIn x l) : occursIn x (c :: l) := by
  obtain ⟨a, b, rfl⟩ := h
  exact ⟨c :: a, b, rfl⟩

theorem occursIn_append_right (x l r : List Char)
    (h : occursIn x l) : occursIn x (l ++ r) := by
  obtain ⟨a, b, rfl⟩ := h
  exact ⟨a, b ++ r, by simp⟩

theorem strJoin_occurs (sep x : List Char) :
    ∀ l, x ∈ l → occursIn x (strJoin sep l) := by
  intro l
  induction l with
  | nil => intro h; cases h
  | cons y t ih =>
      intro hx
      cases t with
      | nil =>
          rw [List.mem_singleton] at hx
          subst hx
          exact ⟨[], [], by simp [strJoin]⟩
      | cons z t2 =>
          rcases List.mem_cons.mp hx with rfl | hx2
          · exact ⟨[], sep ++ strJoin sep (z :: t2), by simp [strJoin]⟩
          · obtain ⟨a, b, hab⟩ := ih hx2
            exact ⟨y ++ sep ++ a, b, by simp [strJoin, hab]⟩

/-- The `{{.Argv}}` substitution on the template: the document splits as
the text before the placeholder, the replacement, and the text after
(which still carries the `{{.Env}}` placeholder). -/
theorem renderStage1_eq (lit : List Char) :
    replaceAll argvPat lit indexHTMLdoc =
      tmplA ++ lit ++ (tmplB ++ envPat ++ tmplC) := by
  have hsplit : indexHTMLdoc = tmplA ++ argvPat ++ (tmplB ++ envPat ++ tmplC) := by
    unfold indexHTMLdoc
    simp [List.append_assoc]
  rw [hsplit,
    replaceAll_split argvPat lit (by decide) tmplA (tmplB ++ envPat ++ tmplC)
      (by decide),
    replaceAll_no_match argvPat lit (tmplB ++ envPat ++ tmplC) (by decide)]

/-- Claim C6: every argv element and every environment value is passed
through JSEscapeString before interpolation; a double quote inside an argv
element therefore appears in the embedded script only in escaped form
(`\x5c\x22`), never as a bare quote.  The escaped element scans cleanly as
a JS string body and contains the escaped-quote pair, it is interpolated
(wrapped in its quote delimiters) into the argv array literal, that
literal is placed verbatim into the document by the `\x7b\x7b.Argv\x7d\x7d`
substitution, every escaped environment value also scans cleanly, and the
env object built from the escaped values lands in the final rendered
page. -/
theorem argv_and_env_values_js_escaped
    (ip : Char → Bool) (flagArgs environ : List (List Char))
    (out a : List Char) (ha : a ∈ flagArgs) :
    scanJSBody (jsEscapeString ip a) = true ∧
    ('\x22' ∈ a → occursIn ['\\', '\x22'] (jsEscapeString ip a)) ∧
    occursIn (argvElem ip a) (argvLiteral ip flagArgs) ∧
    occursIn (argvLiteral ip flagArgs)
      (replaceAll argvPat (argvLiteral ip flagArgs) indexHTMLdoc) ∧
    (∀ e ∈ environ,
      scanJSBody (jsEscapeString ip
        ((e.dropWhile (fun c => !(c = '='))).drop 1)) = true) ∧
    (∀ page envLit, envLiteral ip environ = some envLit →
      renderIndex ip flagArgs environ out = some page →
      occursIn envLit page) := by
  have hne : flagArgs ≠ [] := by
    intro he
    rw [he] at ha
    cases ha
  refine ⟨scan_escString_true ip a, esc_contains_escaped_quote ip a, ?_, ?_, ?_, ?_⟩
  · unfold argvLiteral
    apply occursIn_cons
    apply occursIn_append_right
    exact strJoin_occurs (str ", ") (argvElem ip a) _
      (List.mem_map_of_mem (argvElem ip) ha)
  · rw [renderStage1_eq]
    exact ⟨tmplA, tmplB ++ envPat ++ tmplC, rfl⟩
  · intro e _
    exact scan_escString_true ip _
  · intro page envLit hlit hpage
    unfold renderIndex at hpage
    rw [hlit] at hpage
    rw [if_neg hne] at hpage
    have hpage' : page =
        replaceAll envPat envLit
          (replaceAll argvPat (argvLiteral ip flagArgs) indexHTMLdoc) := by
      exact (Option.some.injEq _ _ ▸ hpage).symm
    rw [hpage', renderStage1_eq]
    apply occursIn_replaceAll envPat envLit (by decide)
    apply hasMatch_of_occursIn envPat (tmplA ++ argvLiteral ip flagArgs ++ tmplB)
      tmplC
    · simp [List.append_assoc]
    · decide

theorem argv_and_env_values_js_escaped_inst :
    scanJSBody (jsEscapeString (fun _ => true) (str "a\x22b")) = true ∧
    occursIn ['\\', '\x22'] (jsEscapeString (fun _ => true) (str "a\x22b")) :=
  ⟨(argv_and_env_values_js_escaped (fun _ => true) [str "a\x22b"] []
      (str "/tmp/out") (str "a\x22b") (by decide)).1,
   (argv_and_env_values_js_escaped (fun _ => true) [str "a\x22b"] []
      (str "/tmp/out") (str "a\x22b") (by decide)).2.1 (by decide)⟩

theorem jsEscapeString_all_plain (ip : Char → Bool) (s : List Char)
    (h : ∀ c ∈ s, jsIsSpecial c = false) : jsEscapeString ip s = s := by
  induction s with
  | nil => rfl
  | cons c t ih =>
      rw [jsEscapeString_cons]
      have hc : jsIsSpecial c = false := h c (List.mem_cons_self c t)
      unfold jsEscapeChar
      rw [if_neg (by simp [hc])]
      rw [ih (fun x hx => h x (List.mem_cons_of_mem c hx))]
      rfl

/-- Claim C9: JSEscapeString leaves brace characters unescaped, `{{.Argv}}`
is substituted first, and the `{{.Env}}` substitution is then applied to
the whole resulting document including the just-substituted argv text:
with the single argv element `\x7b\x7b.Env\x7d\x7d`, the rendered page
carries the env object both at its own placeholder and embedded inside the
argv array string literal, between the argv quote delimiters. -/
theorem env_placeholder_in_argv_gets_env_object (ip : Char → Bool) :
    jsEscapeString ip envPat = envPat ∧
    renderIndex ip [envPat] [str "A=b"] (str "/tmp/out") =
      some ((tmplA ++ str "[\x22") ++ (str "\x7bA: \x22b\x22\x7d") ++
        ((str "\x22]" ++ tmplB) ++ (str "\x7bA: \x22b\x22\x7d") ++ tmplC)) := by
  have hesc : jsEscapeString ip envPat = envPat :=
    jsEscapeString_all_plain ip envPat (by decide)
  refine ⟨hesc, ?_⟩
  have hentry : envEntry ip (str "A=b") = some (str "A: \x22b\x22") := by
    unfold envEntry
    rw [(by decide : (str "A=b").dropWhile (fun c => !(c = '=')) = '=' :: str "b")]
    show some ((str "A=b").takeWhile (fun c => !(c = '=')) ++ str ": \x22" ++
      jsEscapeString ip (str "b") ++ ['\x22']) = _
    rw [jsEscapeString_all_plain ip (str "b") (by decide)]
    decide
  have henvlit : envLiteral ip [str "A=b"] = some (str "\x7bA: \x22b\x22\x7d") := by
    unfold envLiteral envEntriesList
    rw [hentry]
    show some ('\x7b' :: strJoin (str ", ") [str "A: \x22b\x22"] ++ ['\x7d']) = _
    decide
  have hargvlit : argvLiteral ip [envPat] = str "[\x22" ++ envPat ++ str "\x22]" := by
    unfold argvLiteral argvElem
    simp only [List.map_cons, List.map_nil]
    rw [hesc]
    decide
  unfold renderIndex
  rw [henvlit]
  show some (replaceAll envPat (str "\x7bA: \x22b\x22\x7d")
      (replaceAll argvPat
        (argvLiteral ip (if ([envPat] : List (List Char)) = [] then
          [filepathJoin (str "/tmp/out") (str "main.wasm")] else [envPat]))
        indexHTMLdoc)) = _
  rw [if_neg (by decide : ¬ ([envPat] : List (List Char)) = [])]
  rw [hargvlit, renderStage1_eq (str "[\x22" ++ envPat ++ str "\x22]")]
  have hshape : tmplA ++ (str "[\x22" ++ envPat ++ str "\x22]") ++
      (tmplB ++ envPat ++ tmplC) =
      (tmplA ++ str "[\x22") ++ envPat ++
        (str "\x22]" ++ (tmplB ++ envPat ++ tmplC)) := by
    simp [List.append_assoc]
  rw [hshape]
  rw [replaceAll_split envPat (str "\x7bA: \x22b\x22\x7d") (by decide)
    (tmplA ++ str "[\x22") (str "\x22]" ++ (tmplB ++ envPat ++ tmplC))
    (by decide)]
  have hshape2 : str "\x22]" ++ (tmplB ++ envPat ++ tmplC) =
      (str "\x22]" ++ tmplB) ++ envPat ++ tmplC := by
    simp [List.append_assoc]
  rw [hshape2]
  rw [replaceAll_split envPat (str "\x7bA: \x22b\x22\x7d") (by decide)
    (str "\x22]" ++ tmplB) tmplC (by decide)]
  rw [replaceAll_no_match envPat (str "\x7bA: \x22b\x22\x7d") tmplC (by decide)]
